import Mathlib

/-! Shallow embedding of the time-log prototype (src/time_log.py): records,
    record sets and their operations, the line codec, the per-tag aggregation
    and the stats formatter.  Timestamps are modelled as rationals
    (epoch seconds); every clock read (`datetime.now()`) is an explicit
    parameter.  Python exceptions are modelled by explicit error values. -/

/-- A single tracked time interval with a tag set (`class Record`).
    `ts_stop = none` models Python `None`. -/
structure Record where
  ts_start : ℚ
  ts_stop : Option ℚ
  tags : Finset String
deriving DecidableEq

/-- `Record.duration`: duration in seconds; `0` when the stop timestamp is
    absent, otherwise `ts_stop - ts_start`. -/
def Record.duration (r : Record) : ℚ :=
  match r.ts_stop with
  | none => 0
  | some y => y - r.ts_start

/-- `Record.closed`: `not any([ts_stop is None, ts_start == ts_stop])`,
    i.e. the stop timestamp is present and differs from the start. -/
def Record.closed (r : Record) : Bool :=
  match r.ts_stop with
  | none => false
  | some y => decide (y ≠ r.ts_start)

/-- Models Python `s.split(' ')`: accumulate the current word, cut at every
    single space, keeping empty words. -/
def splitAux : List Char → List Char → List String
  | [], acc => [String.mk acc.reverse]
  | c :: cs, acc =>
    if c = ' ' then String.mk acc.reverse :: splitAux cs []
    else splitAux cs (c :: acc)

/-- Python `s.split(' ')` on a string. -/
def splitSpace (s : String) : List String := splitAux s.data []

/-- Python `" ".join(l)`. -/
def joinSpace : List String → String
  | [] => ""
  | [s] => s
  | s :: rest => s ++ " " ++ joinSpace rest

/-- Value of a decimal digit character. -/
def digitVal (c : Char) : Option ℕ :=
  if c.isDigit then some (c.toNat - 48) else none

/-- Parse a nonempty all-digit character list as a natural number. -/
def parseNat (l : List Char) : Option ℕ :=
  if l.isEmpty then none
  else l.foldl (fun acc c => acc.bind fun a => (digitVal c).map fun d => a * 10 + d) (some 0)

/-- Split a character list at the first character satisfying `p`; the second
    component is `none` when no such character occurs. -/
def splitOnChar (p : Char → Bool) : List Char → List Char × Option (List Char)
  | [] => ([], none)
  | c :: cs =>
    if p c then ([], some cs)
    else
      let r := splitOnChar p cs
      (c :: r.1, r.2)

/-- Parse the mantissa of a decimal literal: digits, optionally with a dot,
    at least one digit on one side of the dot.  Returns numerator `n` and
    the power-of-ten exponent `k` of the denominator: the value is
    `n / 10 ^ k`. -/
def parseMantissa (l : List Char) : Option (ℤ × ℕ) :=
  let r := splitOnChar (fun c => c = '.') l
  match r.2 with
  | none => (parseNat r.1).map fun n => ((n : ℤ), 0)
  | some fp =>
    if r.1.isEmpty && fp.isEmpty then none
    else
      match (if r.1.isEmpty then some 0 else parseNat r.1),
            (if fp.isEmpty then some 0 else parseNat fp) with
      | some i, some f => some (((i * 10 ^ fp.length + f : ℕ) : ℤ), fp.length)
      | _, _ => none

/-- Models Python `float(s)` on ordinary decimal literals (optional sign,
    integer and fractional digits, optional exponent): `none` when the string
    does not parse as a number. -/
def parseNum (s : String) : Option ℚ :=
  let sg : ℤ × List Char :=
    match s.data with
    | '-' :: r => (-1, r)
    | '+' :: r => (1, r)
    | l => (1, l)
  let me := splitOnChar (fun c => c = 'e' || c = 'E') sg.2
  (parseMantissa me.1).bind fun m =>
    match me.2 with
    | none => some (mkRat (sg.1 * m.1) (10 ^ m.2))
    | some el =>
      let es : Bool × List Char :=
        match el with
        | '-' :: r => (true, r)
        | '+' :: r => (false, r)
        | l => (false, l)
      (parseNat es.2).map fun n =>
        if es.1 then mkRat (sg.1 * m.1) (10 ^ (m.2 + n))
        else mkRat (sg.1 * m.1 * 10 ^ n) (10 ^ m.2)

/-- Failure modes of `Record.deserialize`: wrong number of fields, or a
    timestamp field that does not parse as a number (Python `ValueError`). -/
inductive DecodeError where
  | wrongFieldCount
  | badNumber
deriving DecidableEq

instance {α β : Type} [DecidableEq α] [DecidableEq β] : DecidableEq (Except α β) :=
  fun x y =>
    match x, y with
    | .ok a, .ok b =>
      if h : a = b then isTrue (by rw [h]) else isFalse (by simp [h])
    | .error a, .error b =>
      if h : a = b then isTrue (by rw [h]) else isFalse (by simp [h])
    | .ok _, .error _ => isFalse (by simp)
    | .error _, .ok _ => isFalse (by simp)

/-- `Record.deserialize(*args)`: exactly three fields; the first two parsed as
    floats, the third split on single spaces into a set. -/
def Record.deserialize (fields : List String) : Except DecodeError Record :=
  match fields with
  | [s1, s2, s3] =>
    match parseNum s1, parseNum s2 with
    | some x, some y => Except.ok ⟨x, some y, (splitSpace s3).toFinset⟩
    | _, _ => Except.error DecodeError.badNumber
  | _ => Except.error DecodeError.wrongFieldCount

/-- `Record.serialize`: `(ts_start, ts_stop, " ".join(tags))`.  `enum` is the
    (arbitrary) iteration order of the Python set `tags`; the result is `none`
    when the stop timestamp is absent (Python raises on `None.timestamp()`). -/
def Record.serialize (r : Record) (enum : List String) : Option (ℚ × ℚ × String) :=
  match r.ts_stop with
  | none => none
  | some y => some (r.ts_start, y, joinSpace enum)

/-- The ordered day collection (`class RecordSet`): record list, the marker
    separating pre-existing from new records, and the set-level tag index. -/
structure RecordSet where
  recs : List Record
  marker : ℕ
  tags : Finset String
deriving DecidableEq

/-- Union of the tag sets of a list of records (the `__init__` accumulation). -/
def tagsUnion (recs : List Record) : Finset String :=
  recs.foldl (fun acc r => acc ∪ r.tags) ∅

/-- `RecordSet.__init__`: store the records, set the marker to their count and
    build the tag index as the union of all their tags. -/
def RecordSet.init (recs : List Record) : RecordSet :=
  ⟨recs, recs.length, tagsUnion recs⟩

/-- `RecordSet.empty`: no records in the set. -/
def RecordSet.emptySet (rs : RecordSet) : Bool := rs.recs.isEmpty

/-- `RecordSet.closed`: the set is empty or its last record is closed. -/
def RecordSet.closed (rs : RecordSet) : Bool :=
  match rs.recs.getLast? with
  | none => true
  | some r => r.closed

/-- The Python exceptions the record-set operations can raise. -/
inductive TLError where
  | illegalOperation
  | indexError
deriving DecidableEq

/-- Result of a mutating operation: either the new state, or an exception
    together with the state left behind by the failed call. -/
inductive TLResult where
  | ok (rs : RecordSet)
  | err (e : TLError) (rs : RecordSet)
deriving DecidableEq

/-- The record-set state after an operation, successful or not. -/
def TLResult.state : TLResult → RecordSet
  | .ok rs => rs
  | .err _ rs => rs

/-- Whether an operation succeeded. -/
def TLResult.isOk : TLResult → Bool
  | .ok _ => true
  | .err _ _ => false

/-- `RecordSet.start_rec(tags)`: raise `IllegalOperation` unless the set is
    closed; otherwise append a fresh record with `start = stop = now` and
    union the tags into the index. -/
def RecordSet.start_rec (now : ℚ) (tg : Finset String) (rs : RecordSet) : TLResult :=
  if rs.closed then .ok ⟨rs.recs ++ [⟨now, some now, tg⟩], rs.marker, rs.tags ∪ tg⟩
  else .err .illegalOperation rs

/-- `RecordSet.stop_rec()`: raise `IllegalOperation` if the set is closed;
    otherwise set the last record's stop timestamp to `now`. -/
def RecordSet.stop_rec (now : ℚ) (rs : RecordSet) : TLResult :=
  if rs.closed then .err .illegalOperation rs
  else
    match rs.recs.getLast? with
    | none => .err .indexError rs
    | some r => .ok ⟨rs.recs.dropLast ++ [⟨r.ts_start, some now, r.tags⟩], rs.marker, rs.tags⟩

/-- `RecordSet.reset_rec()`: raise `IllegalOperation` if the set is closed;
    otherwise pop the last (open) record.  The tag index is not updated. -/
def RecordSet.reset_rec (rs : RecordSet) : TLResult :=
  if rs.closed then .err .illegalOperation rs
  else .ok ⟨rs.recs.dropLast, rs.marker, rs.tags⟩

/-- `RecordSet.restart_rec()`: read the last record's tags (`IndexError` on an
    empty set), then `reset_rec` followed by `start_rec` with those tags. -/
def RecordSet.restart_rec (now : ℚ) (rs : RecordSet) : TLResult :=
  match rs.recs.getLast? with
  | none => .err .indexError rs
  | some last =>
    match rs.reset_rec with
    | .err e rs' => .err e rs'
    | .ok rs' => rs'.start_rec now last.tags

/-- `RecordSet.add_rec(_from, _to, tags)`: build the record; if the set is
    open, pop the open record, append the new one, then re-append the open
    one; otherwise just append.  The tag index is not updated. -/
def RecordSet.add_rec (f t : ℚ) (tg : Finset String) (rs : RecordSet) : RecordSet :=
  let r : Record := ⟨f, some t, tg⟩
  if rs.closed then ⟨rs.recs ++ [r], rs.marker, rs.tags⟩
  else
    match rs.recs.getLast? with
    | none => ⟨rs.recs ++ [r], rs.marker, rs.tags⟩
    | some curr => ⟨rs.recs.dropLast ++ [r, curr], rs.marker, rs.tags⟩

/-- Total duration, in seconds, of the records carrying tag `t` (the body of
    the `generate_stats` loop). -/
def tagTotal (recs : List Record) (t : String) : ℚ :=
  ((recs.filter fun r => decide (t ∈ r.tags)).map Record.duration).sum

/-- `RecordSet.generate_stats()`: a dictionary keyed by the set-level tag
    index, each tag mapped to the summed durations of the records carrying
    it.  Modelled as the key set together with the value function. -/
def RecordSet.generate_stats (rs : RecordSet) : Finset String × (String → ℚ) :=
  (rs.tags, fun t => tagTotal rs.recs t)

/-- Dictionary lookup on a stats mapping: `none` when the tag is not a key. -/
def statsLookup (st : Finset String × (String → ℚ)) (t : String) : Option ℚ :=
  if t ∈ st.1 then some (st.2 t) else none

/-- The open/closed invariant: every record before the last one is closed. -/
def RecordSet.invariant (rs : RecordSet) : Prop :=
  ∀ r ∈ rs.recs.dropLast, r.closed = true

/-- All records of a list are closed. -/
def allClosed (l : List Record) : Prop := ∀ r ∈ l, r.closed = true

instance (rs : RecordSet) : Decidable rs.invariant :=
  inferInstanceAs (Decidable (∀ r ∈ rs.recs.dropLast, r.closed = true))

instance (l : List Record) : Decidable (allClosed l) :=
  inferInstanceAs (Decidable (∀ r ∈ l, r.closed = true))

/-- Failure modes of `read_recs`: a line with the wrong field count (the
    check inside `read_recs`, carrying the line number) or a deserialization
    failure (propagated from `Record.deserialize`, without a line number). -/
inductive ReadError where
  | invalidLine (n : ℕ)
  | malformed (e : DecodeError)
deriving DecidableEq

/-- `read_recs(path)`: decode the rows of the day file in order, stopping at
    the first invalid row.  `k` counts the rows already consumed, so the row
    being read is physical line `k + 1` (csv `line_num` is 1-based). -/
def read_recs : List (List String) → ℕ → Except ReadError (List Record)
  | [], _ => Except.ok []
  | row :: rest, k =>
    if row.length = 3 then
      match Record.deserialize row with
      | .error e => .error (.malformed e)
      | .ok r =>
        match read_recs rest (k + 1) with
        | .error e => .error e
        | .ok rs => .ok (r :: rs)
    else .error (.invalidLine (k + 1))

/-- Zero-pad a natural number to two digits. -/
def pad2 (n : ℕ) : String :=
  if n < 10 then "0" ++ toString n else toString n

/-- Zero-pad a natural number to four digits. -/
def pad4 (n : ℕ) : String :=
  if n < 10 then "000" ++ toString n
  else if n < 100 then "00" ++ toString n
  else if n < 1000 then "0" ++ toString n
  else toString n

/-- A calendar date (`datetime.date`): year, month, day. -/
structure WDate where
  year : ℕ
  month : ℕ
  day : ℕ
deriving DecidableEq

/-- `date.isoformat()`: `YYYY-MM-DD`. -/
def WDate.isoformat (d : WDate) : String :=
  pad4 d.year ++ "-" ++ pad2 d.month ++ "-" ++ pad2 d.day

/-- Round a rational to the nearest integer, ties to even (Python `round`
    and the rounding used by `timedelta` normalization). -/
def roundHalfEven (q : ℚ) : ℤ :=
  let f := ⌊q⌋
  if q - f < 1 / 2 then f
  else if 1 / 2 < q - f then f + 1
  else if f % 2 = 0 then f else f + 1

/-- Python `timedelta(seconds=s).seconds`: convert to whole microseconds
    (ties to even), floor-divide down to whole seconds, and reduce modulo
    86400 (the normalized within-day seconds component, always in
    `[0, 86400)`). -/
def timedeltaSeconds (s : ℚ) : ℤ :=
  ((roundHalfEven (s * 1000000)).fdiv 1000000) % 86400

/-- Round a rational to 2 decimal places, ties to even (Python
    `round(v, 2)`). -/
def roundTo2 (q : ℚ) : ℚ := (roundHalfEven (q * 100) : ℚ) / 100

/-- The hours figure `format_stats` shows for a seconds total `s`:
    `round(timedelta(seconds=s).seconds / 3600, 2)`. -/
def hoursVal (s : ℚ) : ℚ := roundTo2 ((timedeltaSeconds s : ℚ) / 3600)

/-- The parts of the report `format_stats` assembles: the title line, its
    underline, and the headers and rows handed to the external table
    renderer (a placeholder row is `(none, none)`, rendered as dashes). -/
structure StatsReport where
  title : String
  underline : String
  headers : List String
  rows : List (Option String × Option ℚ)
deriving DecidableEq

/-- `format_stats(workdate, stats, timeformat)`: sort the tags, compute the
    rounded hours per tag, fall back to a single placeholder row when there
    are no rows, and build the title line plus an `=` underline of the same
    length.  The tabular rendering itself is done by the external
    pretty-tables library and is modelled by the headers/rows data. -/
def format_stats (workdate : WDate) (st : Finset String × (String → ℚ))
    (timeformat : String) : StatsReport :=
  let tags := st.1.sort (· ≤ ·)
  let rows := tags.map fun t => ((some t : Option String), some (hoursVal (st.2 t)))
  let rows := if rows.isEmpty then [(none, none)] else rows
  let title := workdate.isoformat
  ⟨title, String.mk (List.replicate title.length '='),
    ["Tag", "Time (" ++ timeformat ++ ")"], rows⟩

theorem recordSet_closed_nil (m : ℕ) (tg : Finset String) :
    (RecordSet.mk [] m tg).closed = true := rfl

theorem recordSet_closed_concat (l : List Record) (a : Record) (m : ℕ) (tg : Finset String) :
    (RecordSet.mk (l ++ [a]) m tg).closed = a.closed := by
  simp [RecordSet.closed, List.getLast?_concat]

theorem closed_false_ne_nil {rs : RecordSet} (h : rs.closed = false) : rs.recs ≠ [] := by
  intro hnil
  unfold RecordSet.closed at h
  rw [hnil] at h
  simp at h

theorem invariant_concat {l : List Record} {a : Record} {m : ℕ} {tg : Finset String} :
    (RecordSet.mk (l ++ [a]) m tg).invariant ↔ allClosed l := by
  unfold RecordSet.invariant allClosed
  simp

theorem allClosed_of_closed_invariant {rs : RecordSet} (hc : rs.closed = true)
    (hi : rs.invariant) : allClosed rs.recs := by
  rcases List.eq_nil_or_concat' rs.recs with h | ⟨l, a, h⟩
  · rw [h]; intro r hr; simp at hr
  · intro r hr
    rw [h] at hr
    unfold RecordSet.closed at hc
    rw [h, List.getLast?_concat] at hc
    unfold RecordSet.invariant at hi
    rw [h, List.dropLast_concat] at hi
    rcases List.mem_append.mp hr with h' | h'
    · exact hi r h'
    · rw [List.mem_singleton.mp h']
      exact hc

theorem closed_of_allClosed {l : List Record} (h : allClosed l) (m : ℕ) (tg : Finset String) :
    (RecordSet.mk l m tg).closed = true := by
  rcases List.eq_nil_or_concat' l with hn | ⟨l', a, hn⟩
  · rw [hn]; rfl
  · subst hn
    rw [recordSet_closed_concat]
    exact h a (List.mem_append.mpr (Or.inr (List.mem_singleton.mpr rfl)))

theorem invariant_of_allClosed {l : List Record} (h : allClosed l) (m : ℕ) (tg : Finset String) :
    (RecordSet.mk l m tg).invariant := by
  intro r hr
  exact h r (List.dropLast_subset l hr)

theorem open_record_not_closed (now : ℚ) (tg : Finset String) :
    (Record.mk now (some now) tg).closed = false := by
  simp [Record.closed]

theorem closed_record_closed {f t : ℚ} (h : t ≠ f) (tg : Finset String) :
    (Record.mk f (some t) tg).closed = true := by
  simp [Record.closed, h]

theorem start_rec_eq_closed {rs : RecordSet} (hc : rs.closed = true) (now : ℚ)
    (tg : Finset String) :
    rs.start_rec now tg =
      .ok ⟨rs.recs ++ [⟨now, some now, tg⟩], rs.marker, rs.tags ∪ tg⟩ := by
  unfold RecordSet.start_rec
  rw [if_pos hc]

theorem start_rec_eq_open {rs : RecordSet} (hc : rs.closed = false) (now : ℚ)
    (tg : Finset String) :
    rs.start_rec now tg = .err .illegalOperation rs := by
  unfold RecordSet.start_rec
  rw [if_neg (by rw [hc]; exact Bool.false_ne_true)]

theorem stop_rec_eq_closed {rs : RecordSet} (hc : rs.closed = true) (now : ℚ) :
    rs.stop_rec now = .err .illegalOperation rs := by
  unfold RecordSet.stop_rec
  rw [if_pos hc]

theorem stop_rec_eq_open {rs : RecordSet} {l : List Record} {a : Record}
    (h : rs.recs = l ++ [a]) (hc : rs.closed = false) (now : ℚ) :
    rs.stop_rec now =
      .ok ⟨l ++ [⟨a.ts_start, some now, a.tags⟩], rs.marker, rs.tags⟩ := by
  unfold RecordSet.stop_rec
  rw [if_neg (by rw [hc]; exact Bool.false_ne_true), h]
  simp [List.getLast?_concat, List.dropLast_concat]

theorem reset_rec_eq_closed {rs : RecordSet} (hc : rs.closed = true) :
    rs.reset_rec = .err .illegalOperation rs := by
  unfold RecordSet.reset_rec
  rw [if_pos hc]

theorem reset_rec_eq_open {rs : RecordSet} (hc : rs.closed = false) :
    rs.reset_rec = .ok ⟨rs.recs.dropLast, rs.marker, rs.tags⟩ := by
  unfold RecordSet.reset_rec
  rw [if_neg (by rw [hc]; exact Bool.false_ne_true)]

theorem add_rec_eq_closed {rs : RecordSet} (hc : rs.closed = true) (f t : ℚ)
    (tg : Finset String) :
    rs.add_rec f t tg = ⟨rs.recs ++ [⟨f, some t, tg⟩], rs.marker, rs.tags⟩ := by
  unfold RecordSet.add_rec
  rw [if_pos hc]

theorem add_rec_eq_open {rs : RecordSet} {l : List Record} {a : Record}
    (h : rs.recs = l ++ [a]) (hc : rs.closed = false) (f t : ℚ) (tg : Finset String) :
    rs.add_rec f t tg = ⟨l ++ [⟨f, some t, tg⟩, a], rs.marker, rs.tags⟩ := by
  unfold RecordSet.add_rec
  rw [if_neg (by rw [hc]; exact Bool.false_ne_true), h]
  simp [List.getLast?_concat, List.dropLast_concat]

theorem restart_rec_eq_nil {rs : RecordSet} (h : rs.recs = []) (now : ℚ) :
    rs.restart_rec now = .err .indexError rs := by
  unfold RecordSet.restart_rec
  rw [h]
  rfl

theorem restart_rec_eq_closed {rs : RecordSet} {l : List Record} {a : Record}
    (h : rs.recs = l ++ [a]) (hc : rs.closed = true) (now : ℚ) :
    rs.restart_rec now = .err .illegalOperation rs := by
  unfold RecordSet.restart_rec
  rw [h, List.getLast?_concat, reset_rec_eq_closed hc]

theorem restart_rec_eq_open {rs : RecordSet} {l : List Record} {a : Record}
    (h : rs.recs = l ++ [a]) (hc : rs.closed = false) (hl : allClosed l) (now : ℚ) :
    rs.restart_rec now =
      .ok ⟨l ++ [⟨now, some now, a.tags⟩], rs.marker, rs.tags ∪ a.tags⟩ := by
  unfold RecordSet.restart_rec
  rw [h, List.getLast?_concat, reset_rec_eq_open hc, h, List.dropLast_concat]
  exact start_rec_eq_closed (closed_of_allClosed hl rs.marker rs.tags) now a.tags

theorem invariant_of_rs_closed {rs : RecordSet} (hc : rs.closed = false)
    (hinv : rs.invariant) :
    ∃ l a, rs.recs = l ++ [a] ∧ allClosed l ∧ a.closed = false := by
  rcases List.eq_nil_or_concat' rs.recs with h | ⟨l, a, h⟩
  · exact absurd h (closed_false_ne_nil hc)
  · refine ⟨l, a, h, ?_, ?_⟩
    · intro r hr
      apply hinv
      rw [h, List.dropLast_concat]
      exact hr
    · have := recordSet_closed_concat l a rs.marker rs.tags
      rw [show (RecordSet.mk (l ++ [a]) rs.marker rs.tags).closed = rs.closed by rw [← h]] at this
      rw [hc] at this
      exact this.symm

/-- Claim C1: on a record set in which every record before the last is
    closed, each of start, stop, reset, restart, and add-with-a-fully-closed
    record preserves the invariant that at most the last record is open and
    all records before it are closed; moreover, add on an open set places the
    new closed record immediately before the trailing open record, which
    remains last. -/
theorem C1_ops_preserve_open_last_invariant
    (rs : RecordSet) (now f t : ℚ) (tg : Finset String) (hinv : rs.invariant) :
    (rs.start_rec now tg).state.invariant ∧
    (rs.stop_rec now).state.invariant ∧
    rs.reset_rec.state.invariant ∧
    (rs.restart_rec now).state.invariant ∧
    (t ≠ f → (rs.add_rec f t tg).invariant) ∧
    (rs.closed = false → ∃ curr, rs.recs.getLast? = some curr ∧
      (rs.add_rec f t tg).recs = rs.recs.dropLast ++ [⟨f, some t, tg⟩, curr] ∧
      (rs.add_rec f t tg).recs.getLast? = some curr) := by
  refine ⟨?_, ?_, ?_, ?_, ?_, ?_⟩
  · cases hc : rs.closed with
    | true =>
      rw [start_rec_eq_closed hc]
      exact invariant_concat.mpr (allClosed_of_closed_invariant hc hinv)
    | false =>
      rw [start_rec_eq_open hc]
      exact hinv
  · cases hc : rs.closed with
    | true =>
      rw [stop_rec_eq_closed hc]
      exact hinv
    | false =>
      obtain ⟨l, a, h, hl, _⟩ := invariant_of_rs_closed hc hinv
      rw [stop_rec_eq_open h hc]
      exact invariant_concat.mpr hl
  · cases hc : rs.closed with
    | true =>
      rw [reset_rec_eq_closed hc]
      exact hinv
    | false =>
      rw [reset_rec_eq_open hc]
      intro r hr
      exact hinv r (List.dropLast_subset rs.recs.dropLast hr)
  · rcases List.eq_nil_or_concat' rs.recs with h | ⟨l, a, h⟩
    · rw [restart_rec_eq_nil h]
      exact hinv
    · cases hc : rs.closed with
      | true =>
        rw [restart_rec_eq_closed h hc]
        exact hinv
      | false =>
        obtain ⟨l', a', h', hl', _⟩ := invariant_of_rs_closed hc hinv
        rw [restart_rec_eq_open h' hc hl']
        exact invariant_concat.mpr hl'
  · intro hft
    cases hc : rs.closed with
    | true =>
      rw [add_rec_eq_closed hc]
      exact invariant_concat.mpr (allClosed_of_closed_invariant hc hinv)
    | false =>
      obtain ⟨l, a, h, hl, _⟩ := invariant_of_rs_closed hc hinv
      rw [add_rec_eq_open h hc]
      intro r hr
      rw [show l ++ [Record.mk f (some t) tg, a] = (l ++ [⟨f, some t, tg⟩]) ++ [a] by simp,
        List.dropLast_concat] at hr
      rcases List.mem_append.mp hr with h' | h'
      · exact hl r h'
      · rw [List.mem_singleton.mp h']
        exact closed_record_closed hft tg
  · intro hc
    obtain ⟨l, a, h, _, _⟩ := invariant_of_rs_closed hc hinv
    refine ⟨a, ?_, ?_, ?_⟩
    · rw [h, List.getLast?_concat]
    · rw [add_rec_eq_open h hc, h, List.dropLast_concat]
    · rw [add_rec_eq_open h hc,
        show l ++ [Record.mk f (some t) tg, a] = (l ++ [⟨f, some t, tg⟩]) ++ [a] by simp,
        List.getLast?_concat]

/-- Witness for C1 at a concrete open record set. -/
theorem C1_ops_preserve_open_last_invariant_witness :
    (RecordSet.init [⟨0, some 1, {"a"}⟩, ⟨2, some 2, ∅⟩]).invariant ∧
    ((RecordSet.init [⟨0, some 1, {"a"}⟩, ⟨2, some 2, ∅⟩]).start_rec 5 {"b"}).state.invariant ∧
    ((RecordSet.init [⟨0, some 1, {"a"}⟩, ⟨2, some 2, ∅⟩]).add_rec 3 4 {"b"}).invariant :=
  ⟨by decide,
   (C1_ops_preserve_open_last_invariant
      (RecordSet.init [⟨0, some 1, {"a"}⟩, ⟨2, some 2, ∅⟩]) 5 3 4 {"b"} (by decide)).1,
   (C1_ops_preserve_open_last_invariant
      (RecordSet.init [⟨0, some 1, {"a"}⟩, ⟨2, some 2, ∅⟩]) 5 3 4 {"b"} (by decide)).2.2.2.2.1
     (by norm_num)⟩

/-- Claim C2: `start_rec` raises `IllegalOperation` exactly when the set is
    open; `stop_rec` and `reset_rec` raise `IllegalOperation` exactly when
    the set is empty or closed; every failed call leaves the record sequence
    and the tag index unchanged (the error carries the unchanged input
    state); and a second `start_rec` with no intervening stop or reset fails
    with `IllegalOperation`, leaving the state produced by the first start
    intact. -/
theorem C2_illegal_operation_iff (rs : RecordSet) (now now2 : ℚ)
    (tg tg2 : Finset String) :
    (rs.start_rec now tg = .err .illegalOperation rs ↔ rs.closed = false) ∧
    (rs.stop_rec now = .err .illegalOperation rs ↔ rs.closed = true) ∧
    (rs.reset_rec = .err .illegalOperation rs ↔ rs.closed = true) ∧
    (∀ rs2, rs.start_rec now tg = .ok rs2 →
      rs2.start_rec now2 tg2 = .err .illegalOperation rs2) := by
  refine ⟨?_, ?_, ?_, ?_⟩
  · cases hc : rs.closed with
    | true => rw [start_rec_eq_closed hc]; simp
    | false => rw [start_rec_eq_open hc]; simp
  · cases hc : rs.closed with
    | true => rw [stop_rec_eq_closed hc]; simp
    | false =>
      rcases List.eq_nil_or_concat' rs.recs with h | ⟨l, a, h⟩
      · exact absurd h (closed_false_ne_nil hc)
      · rw [stop_rec_eq_open h hc]; simp
  · cases hc : rs.closed with
    | true => rw [reset_rec_eq_closed hc]; simp
    | false => rw [reset_rec_eq_open hc]; simp
  · intro rs2 hok
    cases hc : rs.closed with
    | true =>
      rw [start_rec_eq_closed hc] at hok
      injection hok with h2
      have hc2 : rs2.closed = false := by
        rw [← h2, recordSet_closed_concat]
        exact open_record_not_closed now tg
      exact start_rec_eq_open hc2 now2 tg2
    | false =>
      rw [start_rec_eq_open hc] at hok
      simp at hok

/-- Witness for C2: starting on a concrete open set fails with
    `IllegalOperation` and leaves the set unchanged. -/
theorem C2_illegal_operation_iff_witness :
    (RecordSet.init [⟨0, some 0, {"a"}⟩]).start_rec 1 {"b"} =
      .err .illegalOperation (RecordSet.init [⟨0, some 0, {"a"}⟩]) :=
  (C2_illegal_operation_iff (RecordSet.init [⟨0, some 0, {"a"}⟩])
    1 1 {"b"} {"b"}).1.mpr (by decide)

/-- Claim C7: `add_rec` is total (the model returns a state, never an error),
    increments the sequence length by exactly one, appends at the end when
    the set is empty or closed, and on an open set inserts the new record
    immediately before the trailing open record, which remains last. -/
theorem C7_add_rec_total_insert (rs : RecordSet) (f t : ℚ) (tg : Finset String) :
    ((rs.add_rec f t tg).recs.length = rs.recs.length + 1) ∧
    (rs.closed = true → (rs.add_rec f t tg).recs = rs.recs ++ [⟨f, some t, tg⟩]) ∧
    (rs.closed = false → ∃ curr, rs.recs.getLast? = some curr ∧
      (rs.add_rec f t tg).recs = rs.recs.dropLast ++ [⟨f, some t, tg⟩, curr] ∧
      (rs.add_rec f t tg).recs.getLast? = some curr) := by
  refine ⟨?_, ?_, ?_⟩
  · cases hc : rs.closed with
    | true => rw [add_rec_eq_closed hc]; simp
    | false =>
      rcases List.eq_nil_or_concat' rs.recs with h | ⟨l, a, h⟩
      · exact absurd h (closed_false_ne_nil hc)
      · rw [add_rec_eq_open h hc, h]; simp
  · intro hc
    rw [add_rec_eq_closed hc]
  · intro hc
    rcases List.eq_nil_or_concat' rs.recs with h | ⟨l, a, h⟩
    · exact absurd h (closed_false_ne_nil hc)
    · refine ⟨a, ?_, ?_, ?_⟩
      · rw [h, List.getLast?_concat]
      · rw [add_rec_eq_open h hc, h, List.dropLast_concat]
      · rw [add_rec_eq_open h hc,
          show l ++ [Record.mk f (some t) tg, a] = (l ++ [⟨f, some t, tg⟩]) ++ [a] by simp,
          List.getLast?_concat]

/-- Witness for C7 at a concrete open set: add inserts before the open
    record. -/
theorem C7_add_rec_total_insert_witness :
    ((RecordSet.init [⟨0, some 0, {"w"}⟩]).add_rec 9 10 {"work"}).recs.length =
      (RecordSet.init [⟨0, some 0, {"w"}⟩]).recs.length + 1 ∧
    ∃ curr, (RecordSet.init [⟨0, some 0, {"w"}⟩]).recs.getLast? = some curr ∧
      ((RecordSet.init [⟨0, some 0, {"w"}⟩]).add_rec 9 10 {"work"}).recs =
        (RecordSet.init [⟨0, some 0, {"w"}⟩]).recs.dropLast ++ [⟨9, some 10, {"work"}⟩, curr] ∧
      ((RecordSet.init [⟨0, some 0, {"w"}⟩]).add_rec 9 10 {"work"}).recs.getLast? = some curr :=
  ⟨(C7_add_rec_total_insert (RecordSet.init [⟨0, some 0, {"w"}⟩]) 9 10 {"work"}).1,
   (C7_add_rec_total_insert (RecordSet.init [⟨0, some 0, {"w"}⟩]) 9 10 {"work"}).2.2 (by decide)⟩

/-- Counterexample to claim C3: `add_rec` does not union the new record's
    tags into the set-level tag index, so after adding a record to the empty
    set the index differs from the union of the tags of the records in the
    sequence. -/
theorem C3_counterexample :
    ((RecordSet.init []).add_rec 0 1 {"x"}).tags ≠
      tagsUnion ((RecordSet.init []).add_rec 0 1 {"x"}).recs := by decide

/-- Claim C3 as amended: the tag index equals the union of the records' tags
    after construction; a successful `start_rec` unions the given tags into
    the index; `stop_rec` and `reset_rec` leave the index unchanged;
    `add_rec` leaves the index unchanged (so it can miss the added record's
    tags); and a successful `restart_rec` unions the captured tags of the
    removed open record into the index. -/
theorem C3_tag_index_amended (recs : List Record) (rs : RecordSet) (now f t : ℚ)
    (tg : Finset String) :
    (RecordSet.init recs).tags = tagsUnion recs ∧
    (∀ rs2, rs.start_rec now tg = .ok rs2 → rs2.tags = rs.tags ∪ tg) ∧
    ((rs.stop_rec now).state.tags = rs.tags) ∧
    (rs.reset_rec.state.tags = rs.tags) ∧
    ((rs.add_rec f t tg).tags = rs.tags) ∧
    (∀ rs2, rs.restart_rec now = .ok rs2 → ∃ last, rs.recs.getLast? = some last ∧
      rs2.tags = rs.tags ∪ last.tags) := by
  refine ⟨rfl, ?_, ?_, ?_, ?_, ?_⟩
  · intro rs2 hok
    cases hc : rs.closed with
    | true =>
      rw [start_rec_eq_closed hc] at hok
      injection hok with h2
      rw [← h2]
    | false =>
      rw [start_rec_eq_open hc] at hok
      simp at hok
  · cases hc : rs.closed with
    | true => rw [stop_rec_eq_closed hc]; rfl
    | false =>
      rcases List.eq_nil_or_concat' rs.recs with h | ⟨l, a, h⟩
      · exact absurd h (closed_false_ne_nil hc)
      · rw [stop_rec_eq_open h hc]; rfl
  · cases hc : rs.closed with
    | true => rw [reset_rec_eq_closed hc]; rfl
    | false => rw [reset_rec_eq_open hc]; rfl
  · cases hc : rs.closed with
    | true => rw [add_rec_eq_closed hc]
    | false =>
      rcases List.eq_nil_or_concat' rs.recs with h | ⟨l, a, h⟩
      · exact absurd h (closed_false_ne_nil hc)
      · rw [add_rec_eq_open h hc]
  · intro rs2 hok
    rcases List.eq_nil_or_concat' rs.recs with h | ⟨l, a, h⟩
    · rw [restart_rec_eq_nil h] at hok
      simp at hok
    · cases hc : rs.closed with
      | true =>
        rw [restart_rec_eq_closed h hc] at hok
        simp at hok
      | false =>
        have hstep : rs.restart_rec now =
            (RecordSet.mk l rs.marker rs.tags).start_rec now a.tags := by
          unfold RecordSet.restart_rec
          rw [h, List.getLast?_concat, reset_rec_eq_open hc, h, List.dropLast_concat]
        rw [hstep] at hok
        cases hcl : (RecordSet.mk l rs.marker rs.tags).closed with
        | true =>
          rw [start_rec_eq_closed hcl] at hok
          injection hok with h2
          exact ⟨a, by rw [h, List.getLast?_concat], by rw [← h2]⟩
        | false =>
          rw [start_rec_eq_open hcl] at hok
          simp at hok

/-- Witness for C3 as amended: a concrete add leaves the index unchanged and
    a concrete successful start unions the tags in. -/
theorem C3_tag_index_amended_witness :
    ((RecordSet.init [⟨0, some 1, {"x"}⟩]).add_rec 2 3 {"y"}).tags =
      (RecordSet.init [⟨0, some 1, {"x"}⟩]).tags ∧
    ((RecordSet.init [⟨0, some 1, {"x"}⟩]).start_rec 5 {"y"}).state.tags =
      (RecordSet.init [⟨0, some 1, {"x"}⟩]).tags ∪ {"y"} :=
  ⟨(C3_tag_index_amended [] (RecordSet.init [⟨0, some 1, {"x"}⟩]) 5 2 3 {"y"}).2.2.2.2.1,
   (C3_tag_index_amended [] (RecordSet.init [⟨0, some 1, {"x"}⟩]) 5 2 3 {"y"}).2.1
     ((RecordSet.init [⟨0, some 1, {"x"}⟩]).start_rec 5 {"y"}).state (by decide)⟩

/-- Claim C4: a record is closed iff its stop timestamp is present and
    differs from its start timestamp; in particular the freshly-opened
    sentinel (stop equal to start) is not closed, and a record with no stop
    timestamp is not closed. -/
theorem C4_record_closed_iff (r : Record) :
    (r.closed = true ↔ ∃ y, r.ts_stop = some y ∧ y ≠ r.ts_start) ∧
    (∀ a : ℚ, ∀ tg : Finset String, (Record.mk a (some a) tg).closed = false) ∧
    (∀ a : ℚ, ∀ tg : Finset String, (Record.mk a none tg).closed = false) := by
  refine ⟨?_, fun a tg => open_record_not_closed a tg, fun a tg => rfl⟩
  cases hr : r.ts_stop with
  | none => simp [Record.closed, hr]
  | some y => simp [Record.closed, hr]

/-- Witness for C4: a record with distinct stop and start is closed. -/
theorem C4_record_closed_iff_witness :
    (Record.mk 0 (some 1) ∅).closed = true :=
  (C4_record_closed_iff ⟨0, some 1, ∅⟩).1.mpr ⟨1, rfl, by norm_num⟩

theorem string_data_append (s t : String) : (s ++ t).data = s.data ++ t.data := by
  cases s
  cases t
  rfl

theorem string_mk_data (s : String) : String.mk s.data = s := by
  cases s
  rfl

theorem splitAux_no_space_append (w t acc : List Char) (hw : ∀ c ∈ w, c ≠ ' ') :
    splitAux (w ++ ' ' :: t) acc = String.mk (acc.reverse ++ w) :: splitAux t [] := by
  induction w generalizing acc with
  | nil => simp [splitAux]
  | cons c w ih =>
    have hc : c ≠ ' ' := hw c (List.mem_cons_self c w)
    simp only [List.cons_append, splitAux, if_neg hc, List.append_eq]
    rw [ih (c :: acc) fun d hd => hw d (List.mem_cons_of_mem c hd)]
    simp

theorem splitAux_no_space (w acc : List Char) (hw : ∀ c ∈ w, c ≠ ' ') :
    splitAux w acc = [String.mk (acc.reverse ++ w)] := by
  induction w generalizing acc with
  | nil => simp [splitAux]
  | cons c w ih =>
    have hc : c ≠ ' ' := hw c (List.mem_cons_self c w)
    simp only [splitAux, if_neg hc]
    rw [ih (c :: acc) fun d hd => hw d (List.mem_cons_of_mem c hd)]
    simp

theorem joinSpace_data_cons (s : String) (r : List String) (hr : r ≠ []) :
    (joinSpace (s :: r)).data = s.data ++ ' ' :: (joinSpace r).data := by
  match r with
  | x :: xs =>
    show (s ++ " " ++ joinSpace (x :: xs)).data = _
    rw [string_data_append, string_data_append]
    simp

theorem splitSpace_joinSpace (l : List String) (hne : l ≠ [])
    (hsp : ∀ s ∈ l, ∀ c ∈ s.data, c ≠ ' ') :
    splitSpace (joinSpace l) = l := by
  induction l with
  | nil => contradiction
  | cons s r ih =>
    rcases List.eq_nil_or_concat' r with hr | ⟨r', x, hr⟩
    · subst hr
      show splitAux (joinSpace [s]).data [] = [s]
      rw [show joinSpace [s] = s from rfl]
      rw [splitAux_no_space s.data [] (hsp s (List.mem_cons_self s []))]
      simp [string_mk_data]
    · have hrne : r ≠ [] := by
        rw [hr]
        simp
      unfold splitSpace
      rw [joinSpace_data_cons s r hrne,
        splitAux_no_space_append s.data (joinSpace r).data []
          (hsp s (List.mem_cons_self s r))]
      rw [show splitAux (joinSpace r).data [] = splitSpace (joinSpace r) from rfl]
      rw [ih hrne fun u hu => hsp u (List.mem_cons_of_mem s hu)]
      simp [string_mk_data]

/-- Counterexample to claim C5: a fully-specified record with an empty tag
    set does not round-trip: the tag field serializes to the empty string,
    which decodes to the singleton set containing the empty string. -/
theorem C5_counterexample :
    Record.serialize ⟨0, some 1, ∅⟩ [] = some (0, 1, "") ∧
    Record.deserialize ["0", "1", ""] = .ok ⟨0, some 1, {""}⟩ ∧
    Record.mk 0 (some 1) {""} ≠ Record.mk 0 (some 1) ∅ := by
  refine ⟨rfl, by decide, by decide⟩

/-- Claim C5 as amended: a fully-specified record round-trips through the
    codec provided its tag set is nonempty and no tag contains a space: for
    every iteration order of the tag set and all textual renderings of the
    two timestamps that parse back to the same values, decoding the encoded
    line yields the same start, the same stop and the same tag set. -/
theorem deserialize_cons (s1 s2 s3 : String) :
    Record.deserialize [s1, s2, s3] =
      match parseNum s1, parseNum s2 with
      | some x, some y => .ok ⟨x, some y, (splitSpace s3).toFinset⟩
      | _, _ => .error .badNumber := rfl

theorem C5_roundtrip_amended (a b : ℚ) (tg : Finset String) (enum : List String)
    (hnd : enum.Nodup) (hfin : enum.toFinset = tg) (hne : enum ≠ [])
    (hsp : ∀ s ∈ enum, ∀ c ∈ s.data, c ≠ ' ')
    (s1 s2 : String) (h1 : parseNum s1 = some a) (h2 : parseNum s2 = some b) :
    Record.serialize ⟨a, some b, tg⟩ enum = some (a, b, joinSpace enum) ∧
    Record.deserialize [s1, s2, joinSpace enum] = .ok ⟨a, some b, tg⟩ := by
  refine ⟨rfl, ?_⟩
  rw [deserialize_cons, h1, h2, splitSpace_joinSpace enum hne hsp, hfin]

/-- Witness for C5 as amended at a concrete record. -/
theorem C5_roundtrip_amended_witness :
    Record.deserialize ["0", "1", joinSpace ["a"]] = .ok ⟨0, some 1, {"a"}⟩ :=
  (C5_roundtrip_amended 0 1 {"a"} ["a"] (by decide) (by decide) (by decide)
    (by decide) "0" "1" (by decide) (by decide)).2

theorem mem_tagsUnion_foldl (recs : List Record) (acc : Finset String) (t : String) :
    t ∈ recs.foldl (fun a r => a ∪ r.tags) acc ↔ t ∈ acc ∨ ∃ r ∈ recs, t ∈ r.tags := by
  induction recs generalizing acc with
  | nil => simp
  | cons r rest ih =>
    simp only [List.foldl_cons, ih, Finset.mem_union, List.mem_cons]
    constructor
    · rintro ((h | h) | ⟨u, hu, hut⟩)
      · exact Or.inl h
      · exact Or.inr ⟨r, Or.inl rfl, h⟩
      · exact Or.inr ⟨u, Or.inr hu, hut⟩
    · rintro (h | ⟨u, rfl | hu, hut⟩)
      · exact Or.inl (Or.inl h)
      · exact Or.inl (Or.inr hut)
      · exact Or.inr ⟨u, hu, hut⟩

theorem mem_tagsUnion (recs : List Record) (t : String) :
    t ∈ tagsUnion recs ↔ ∃ r ∈ recs, t ∈ r.tags := by
  unfold tagsUnion
  rw [mem_tagsUnion_foldl]
  simp

/-- Claim C6: over a record set built from a list of records,
    `generate_stats` is a mapping whose keys are exactly the distinct tags
    appearing on the records and whose value at each tag is the full sum, in
    seconds, of the durations of the records carrying that tag (a record
    with several tags counts in full under each of them); an empty set
    yields the empty mapping; and the concrete example from the spec
    evaluates to x = 5400 and y = 1800, with no other key. -/
theorem C6_generate_stats_correct (recs : List Record) (t : String) :
    ((statsLookup (RecordSet.init recs).generate_stats t).isSome = true ↔
      ∃ r ∈ recs, t ∈ r.tags) ∧
    ((∃ r ∈ recs, t ∈ r.tags) →
      statsLookup (RecordSet.init recs).generate_stats t = some (tagTotal recs t)) ∧
    (statsLookup (RecordSet.init []).generate_stats t = none) ∧
    (statsLookup (RecordSet.init
        [⟨0, some 3600, {"x"}⟩, ⟨0, some 1800, {"x", "y"}⟩]).generate_stats "x" =
      some 5400) ∧
    (statsLookup (RecordSet.init
        [⟨0, some 3600, {"x"}⟩, ⟨0, some 1800, {"x", "y"}⟩]).generate_stats "y" =
      some 1800) ∧
    (∀ s : String, s ≠ "x" → s ≠ "y" →
      statsLookup (RecordSet.init
        [⟨0, some 3600, {"x"}⟩, ⟨0, some 1800, {"x", "y"}⟩]).generate_stats s = none) := by
  have hdef : ∀ (rl : List Record) (u : String),
      statsLookup (RecordSet.init rl).generate_stats u =
        if u ∈ tagsUnion rl then some (tagTotal rl u) else none := fun _ _ => rfl
  refine ⟨?_, ?_, ?_, ?_, ?_, ?_⟩
  · rw [hdef]
    by_cases h : t ∈ tagsUnion recs
    · rw [if_pos h]
      simp only [Option.isSome_some, true_iff]
      exact (mem_tagsUnion recs t).mp h
    · rw [if_neg h]
      simp only [Option.isSome_none, Bool.false_eq_true, false_iff]
      intro hex
      exact h ((mem_tagsUnion recs t).mpr hex)
  · intro hex
    rw [hdef, if_pos ((mem_tagsUnion recs t).mpr hex)]
  · rw [hdef, if_neg]
    simp [tagsUnion]
  · rw [hdef, if_pos (by decide)]
    simp only [Option.some.injEq]
    simp [tagTotal, Record.duration, List.filter_cons]
    try norm_num
  · rw [hdef, if_pos (by decide)]
    simp only [Option.some.injEq]
    simp [tagTotal, Record.duration, List.filter_cons]
    try norm_num
  · intro s hs1 hs2
    rw [hdef, if_neg]
    intro hmem
    rcases (mem_tagsUnion _ s).mp hmem with ⟨r, hr, hrt⟩
    rcases List.mem_cons.mp hr with rfl | hr2
    · exact hs1 (Finset.mem_singleton.mp hrt)
    · rcases List.mem_cons.mp hr2 with rfl | hr3
      · rcases Finset.mem_insert.mp hrt with h | h
        · exact hs1 h
        · exact hs2 (Finset.mem_singleton.mp h)
      · simp at hr3

/-- Witness for C6: a concrete tag's total is looked up successfully. -/
theorem C6_generate_stats_correct_witness :
    statsLookup (RecordSet.init [⟨0, some 3600, {"x"}⟩]).generate_stats "x" =
      some (tagTotal [⟨0, some 3600, {"x"}⟩] "x") :=
  (C6_generate_stats_correct [⟨0, some 3600, {"x"}⟩] "x").2.1
    ⟨⟨0, some 3600, {"x"}⟩, by simp, by simp⟩

/-- Counterexample to claim C8: on an empty record set, `restart_rec` reads
    the last record before checking anything and fails with an `IndexError`,
    not with `IllegalOperation`. -/
theorem C8_counterexample :
    (RecordSet.init []).restart_rec 0 = .err .indexError (RecordSet.init []) ∧
    TLError.indexError ≠ TLError.illegalOperation :=
  ⟨rfl, by decide⟩

/-- Claim C8 as amended: on an empty set `restart_rec` fails with an
    `IndexError` (leaving the set unchanged); on a nonempty closed set it
    fails with `IllegalOperation` (leaving the set unchanged); on an open set
    satisfying the open-last invariant it removes the open record and appends
    a fresh open record carrying the captured tags. -/
theorem C8_restart_amended (rs : RecordSet) (now : ℚ) :
    (rs.emptySet = true → rs.restart_rec now = .err .indexError rs) ∧
    (rs.emptySet = false → rs.closed = true →
      rs.restart_rec now = .err .illegalOperation rs) ∧
    (rs.closed = false → rs.invariant → ∃ last, rs.recs.getLast? = some last ∧
      rs.restart_rec now =
        .ok ⟨rs.recs.dropLast ++ [⟨now, some now, last.tags⟩], rs.marker,
          rs.tags ∪ last.tags⟩) := by
  refine ⟨?_, ?_, ?_⟩
  · intro he
    exact restart_rec_eq_nil (List.isEmpty_iff.mp he) now
  · intro he hc
    rcases List.eq_nil_or_concat' rs.recs with h | ⟨l, a, h⟩
    · unfold RecordSet.emptySet at he
      rw [h] at he
      simp at he
    · exact restart_rec_eq_closed h hc now
  · intro hc hinv
    obtain ⟨l, a, h, hl, _⟩ := invariant_of_rs_closed hc hinv
    refine ⟨a, by rw [h, List.getLast?_concat], ?_⟩
    rw [restart_rec_eq_open h hc hl now, h, List.dropLast_concat]

/-- Witness for C8 as amended: restart on a concrete nonempty closed set
    fails with `IllegalOperation` and leaves the set unchanged. -/
theorem C8_restart_amended_witness :
    (RecordSet.init [⟨0, some 1, {"a"}⟩]).restart_rec 7 =
      .err .illegalOperation (RecordSet.init [⟨0, some 1, {"a"}⟩]) :=
  (C8_restart_amended (RecordSet.init [⟨0, some 1, {"a"}⟩]) 7).2.1
    (by decide) (by decide)

/-- Counterexample to claim C9: a valid line whose tag field is empty decodes
    to the singleton tag set containing the empty string, not to the empty
    tag set. -/
theorem C9_counterexample :
    Record.deserialize ["0", "1", ""] = .ok ⟨0, some 1, {""}⟩ ∧
    ({""} : Finset String) ≠ ∅ :=
  ⟨by decide, by decide⟩

/-- Claim C9 as amended: single-line decode fails exactly when the field
    count is not 3 (a `MalformedRecord` carrying no data) or a timestamp
    field does not parse as a number; on success the tag field is split on
    single spaces, an empty tag field yielding the singleton set containing
    the empty string; file decode stops at the first invalid line with no
    partial result, the error carrying that line's number only in the
    wrong-field-count case (a timestamp parse failure propagates without a
    line number). -/
theorem C9_decode_amended :
    (∀ fs : List String, fs.length ≠ 3 →
      Record.deserialize fs = .error .wrongFieldCount) ∧
    (∀ s1 s2 s3 : String, (∃ r, Record.deserialize [s1, s2, s3] = .ok r) ↔
      (parseNum s1).isSome = true ∧ (parseNum s2).isSome = true) ∧
    (∀ s1 s2 s3 : String, ∀ a b : ℚ, parseNum s1 = some a → parseNum s2 = some b →
      Record.deserialize [s1, s2, s3] = .ok ⟨a, some b, (splitSpace s3).toFinset⟩) ∧
    (splitSpace "" = [""]) ∧
    (∀ pre : List (List String), ∀ row : List String, ∀ rest : List (List String),
      ∀ k : ℕ, (∀ r ∈ pre, r.length = 3 ∧ ∃ x, Record.deserialize r = .ok x) →
      row.length ≠ 3 →
      read_recs (pre ++ row :: rest) k = .error (.invalidLine (k + pre.length + 1))) ∧
    (∀ pre : List (List String), ∀ row : List String, ∀ rest : List (List String),
      ∀ k : ℕ, (∀ r ∈ pre, r.length = 3 ∧ ∃ x, Record.deserialize r = .ok x) →
      row.length = 3 → Record.deserialize row = .error .badNumber →
      read_recs (pre ++ row :: rest) k = .error (.malformed .badNumber)) ∧
    (∀ rows : List (List String), ∀ k : ℕ, ∀ l : List Record,
      read_recs rows k = .ok l → l.length = rows.length) := by
  refine ⟨?_, ?_, ?_, rfl, ?_, ?_, ?_⟩
  · intro fs h
    match fs with
    | [] => rfl
    | [a] => rfl
    | [a, b] => rfl
    | [a, b, c] => exact absurd rfl h
    | a :: b :: c :: d :: rest => rfl
  · intro s1 s2 s3
    rw [deserialize_cons]
    cases h1 : parseNum s1 with
    | none => simp
    | some a =>
      cases h2 : parseNum s2 with
      | none => simp
      | some b => simp
  · intro s1 s2 s3 a b h1 h2
    rw [deserialize_cons, h1, h2]
  · intro pre row rest
    induction pre with
    | nil =>
      intro k hpre hrow
      simp only [List.nil_append, read_recs, if_neg hrow]
      rfl
    | cons p ps ih =>
      intro k hpre hrow
      obtain ⟨hp3, x, hx⟩ := hpre p (List.mem_cons_self p ps)
      simp only [List.cons_append, read_recs, if_pos hp3, hx, List.append_eq]
      rw [ih (k + 1) (fun r hr => hpre r (List.mem_cons_of_mem p hr)) hrow]
      have harith : k + 1 + ps.length + 1 = k + (p :: ps).length + 1 := by
        simp [List.length_cons]
        omega
      rw [harith]
  · intro pre row rest
    induction pre with
    | nil =>
      intro k hpre hrow3 hbad
      simp only [List.nil_append, read_recs, if_pos hrow3, hbad]
    | cons p ps ih =>
      intro k hpre hrow3 hbad
      obtain ⟨hp3, x, hx⟩ := hpre p (List.mem_cons_self p ps)
      simp only [List.cons_append, read_recs, if_pos hp3, hx, List.append_eq]
      rw [ih (k + 1) (fun r hr => hpre r (List.mem_cons_of_mem p hr)) hrow3 hbad]
  · intro rows
    induction rows with
    | nil =>
      intro k l h
      simp only [read_recs] at h
      injection h with h2
      rw [← h2]
      rfl
    | cons row rest ih =>
      intro k l h
      simp only [read_recs] at h
      by_cases h3 : row.length = 3
      · rw [if_pos h3] at h
        cases hd : Record.deserialize row with
        | error e => rw [hd] at h; exact absurd h (by simp)
        | ok r =>
          rw [hd] at h
          cases hr : read_recs rest (k + 1) with
          | error e => rw [hr] at h; exact absurd h (by simp)
          | ok l2 =>
            rw [hr] at h
            injection h with h2
            rw [← h2]
            simp [ih (k + 1) l2 hr]
      · rw [if_neg h3] at h
        exact absurd h (by simp)

/-- Witness for C9 as amended: a concrete valid line decodes with the tag
    field split on spaces, and a concrete file with a short second line fails
    with the line number 2. -/
theorem C9_decode_amended_witness :
    Record.deserialize ["2", "3", "a b"] = .ok ⟨2, some 3, (splitSpace "a b").toFinset⟩ ∧
    read_recs [["0", "1", "x"], ["bad"], ["7", "8", "y"]] 0 = .error (.invalidLine 2) :=
  ⟨C9_decode_amended.2.2.1 "2" "3" "a b" 2 3 (by decide) (by decide),
   C9_decode_amended.2.2.2.2.1 [["0", "1", "x"]] ["bad"] [["7", "8", "y"]] 0
     (by
       intro r hr
       rw [List.mem_singleton] at hr
       subst hr
       exact ⟨rfl, ⟨⟨0, some 1, {"x"}⟩, by decide⟩⟩)
     (by decide)⟩

theorem roundHalfEven_intCast (n : ℤ) : roundHalfEven ((n : ℚ)) = n := by
  simp only [roundHalfEven, Int.floor_intCast, sub_self]
  norm_num

theorem timedeltaSeconds_intCast (s : ℤ) :
    timedeltaSeconds ((s : ℚ)) = s % 86400 := by
  unfold timedeltaSeconds
  rw [show ((s : ℚ) * 1000000) = (((s * 1000000 : ℤ)) : ℚ) by push_cast; ring,
    roundHalfEven_intCast, Int.mul_fdiv_cancel s (by norm_num)]

theorem roundTo2_intCast (n : ℤ) : roundTo2 ((n : ℚ)) = n := by
  unfold roundTo2
  rw [show ((n : ℚ) * 100) = (((n * 100 : ℤ)) : ℚ) by push_cast; ring,
    roundHalfEven_intCast]
  push_cast
  field_simp

theorem hoursVal_within_day (s : ℤ) (h0 : 0 ≤ s) (h1 : s < 86400) :
    hoursVal ((s : ℚ)) = roundTo2 ((s : ℚ) / 3600) := by
  unfold hoursVal
  rw [timedeltaSeconds_intCast, Int.emod_eq_of_lt h0 h1]

theorem roundTo2_three_halves : roundTo2 ((3 : ℚ) / 2) = 3 / 2 := by
  unfold roundTo2
  rw [show ((3 : ℚ) / 2 * 100) = (((150 : ℤ)) : ℚ) by norm_num, roundHalfEven_intCast]
  norm_num

theorem hoursVal_5400 : hoursVal ((5400 : ℚ)) = 3 / 2 := by
  rw [show ((5400 : ℚ)) = (((5400 : ℤ)) : ℚ) by norm_num,
    hoursVal_within_day 5400 (by norm_num) (by norm_num)]
  rw [show ((((5400 : ℤ)) : ℚ) / 3600) = ((3 : ℚ) / 2) by norm_num]
  exact roundTo2_three_halves

theorem hoursVal_90000 : hoursVal ((90000 : ℚ)) = 1 := by
  rw [show ((90000 : ℚ)) = (((90000 : ℤ)) : ℚ) by norm_num]
  unfold hoursVal
  rw [timedeltaSeconds_intCast]
  rw [show ((90000 : ℤ) % 86400) = (3600 : ℤ) by decide]
  rw [show ((((3600 : ℤ)) : ℚ) / 3600) = (((1 : ℤ)) : ℚ) by norm_num]
  rw [roundTo2_intCast]
  norm_num

/-- Counterexample to claim C10: the formatter divides the *within-day*
    seconds component (`timedelta(...).seconds`, i.e. the total reduced
    modulo 86400) by 3600, so a 90000-second total renders as 1 hour, not as
    the 25 hours that plain seconds-to-hours conversion gives. -/
theorem C10_counterexample :
    (format_stats ⟨2024, 1, 1⟩ ({"x"}, fun _ => 90000) "H").rows =
      [(some "x", some 1)] ∧
    roundTo2 ((90000 : ℚ) / 3600) = 25 ∧ ((1 : ℚ)) ≠ 25 := by
  refine ⟨?_, ?_, by norm_num⟩
  · unfold format_stats
    simp [Finset.sort_singleton, hoursVal_90000]
  · rw [show ((90000 : ℚ) / 3600) = (((25 : ℤ)) : ℚ) by norm_num, roundTo2_intCast]
    norm_num

/-- Claim C10 as amended: the formatter renders deterministically with the
    tags sorted lexicographically and columns `Tag` and `Time (H)`; an empty
    mapping renders a single placeholder row; the title line is the ISO date
    with an `=` underline of matching length; and each tag's value is the
    seconds total reduced to its within-day component (modulo 86400, the
    `timedelta.seconds` quirk) divided by 3600 and rounded to 2 decimal
    places, which agrees with plain seconds-to-hours conversion only for
    totals below one day; the spec's concrete example renders title
    `2024-01-01`, a 10-character underline, and the single row x, 1.5. -/
theorem C10_format_stats_amended (d : WDate) (keys : Finset String)
    (val : String → ℚ) :
    (format_stats d (keys, val) "H").title = d.isoformat ∧
    (format_stats d (keys, val) "H").underline.length =
      (format_stats d (keys, val) "H").title.length ∧
    (format_stats d (keys, val) "H").headers = ["Tag", "Time (H)"] ∧
    (keys = ∅ → (format_stats d (keys, val) "H").rows = [(none, none)]) ∧
    (keys ≠ ∅ → (format_stats d (keys, val) "H").rows =
      (keys.sort (· ≤ ·)).map fun t => (some t, some (hoursVal (val t)))) ∧
    List.Sorted (· ≤ ·) (keys.sort (· ≤ ·)) ∧
    (∀ s : ℤ, 0 ≤ s → s < 86400 →
      hoursVal ((s : ℚ)) = roundTo2 ((s : ℚ) / 3600)) ∧
    ((format_stats ⟨2024, 1, 1⟩ ({"x"}, fun _ => 5400) "H").title = "2024-01-01" ∧
      (format_stats ⟨2024, 1, 1⟩ ({"x"}, fun _ => 5400) "H").underline = "==========" ∧
      (format_stats ⟨2024, 1, 1⟩ ({"x"}, fun _ => 5400) "H").rows =
        [(some "x", some (3 / 2))]) := by
  refine ⟨rfl, ?_, rfl, ?_, ?_, Finset.sort_sorted (· ≤ ·) keys, hoursVal_within_day,
    ?_, ?_, ?_⟩
  · show (List.replicate d.isoformat.length '=').length = d.isoformat.length
    simp
  · intro h
    subst h
    unfold format_stats
    simp [Finset.sort_empty]
  · intro hne
    obtain ⟨a, ha⟩ := Finset.nonempty_iff_ne_empty.mpr hne
    have hsn : keys.sort (· ≤ ·) ≠ [] := by
      intro h
      have hmem : a ∈ keys.sort (· ≤ ·) := (Finset.mem_sort (· ≤ ·)).mpr ha
      rw [h] at hmem
      simp at hmem
    unfold format_stats
    have hie : (List.map (fun t => ((some t : Option String), some (hoursVal (val t))))
        (keys.sort (· ≤ ·))).isEmpty = false := by
      rw [List.isEmpty_eq_false_iff_exists_mem]
      obtain ⟨a2, ha2⟩ := List.exists_mem_of_ne_nil _ hsn
      exact ⟨_, List.mem_map_of_mem _ ha2⟩
    simp only [hie, Bool.false_eq_true, if_false]
  · decide
  · decide
  · unfold format_stats
    simp [Finset.sort_singleton, hoursVal_5400]

/-- Witness for C10 as amended: the empty mapping renders the placeholder
    row, and a within-day total is plain seconds-to-hours. -/
theorem C10_format_stats_amended_witness :
    (format_stats ⟨2024, 1, 1⟩ ((∅ : Finset String), fun _ => 0) "H").rows =
      [(none, none)] ∧
    hoursVal (((7200 : ℤ) : ℚ)) = roundTo2 (((7200 : ℤ) : ℚ) / 3600) :=
  ⟨(C10_format_stats_amended ⟨2024, 1, 1⟩ ∅ (fun _ => 0)).2.2.2.1 rfl,
   (C10_format_stats_amended ⟨2024, 1, 1⟩ ∅ (fun _ => 0)).2.2.2.2.2.2.1 7200
     (by norm_num) (by norm_num)⟩
